import Mathlib

/-!
Verification development for the Symphony.js code-to-mood analysis engine and
its deterministic sound-scheduling model.

The analysis heuristics (detectSyntaxErrors, calculateNestingDepth,
detectRecursion, detectComments) and the composition planner
(analyzeForComposition) are not shipped as implementation files in the
repository snapshot (only their unit tests and the design document are), so
they are modelled from the specification text. The mood classifier (analyze)
follows the pseudocode given verbatim in .kiro/specs/symphony-js/design.md.
The commit-playback scheduler (playCommitComposition and its helpers) is
embedded from src/services/InstrumentManager.ts, with the external Tone.js
transport modelled as an explicit state record with
start / stop / cancel / schedule / settable-bpm semantics, which is the
transport contract the specification assigns to the audio backend.

All numeric quantities are modelled as rationals, so every arithmetic step of
the source is exact here.
-/

namespace Symphony

/-- Whitespace test used by the line-based heuristics. -/
def isWS (c : Char) : Bool := c = ' ' || c = '\t' || c = '\r'

/-- Identifier characters, used when extracting a declared function name. -/
def identChar (c : Char) : Bool := c.isAlphanum || c = '_'

/-- Decides whether the first list is an initial segment of the second. -/
def isInitSeg : List Char → List Char → Bool
  | [], _ => true
  | _ :: _, [] => false
  | a :: as, b :: bs => a = b && isInitSeg as bs

/-- Decides whether needle occurs as a contiguous substring of hay. -/
def isSubstrOf (needle : List Char) : List Char → Bool
  | [] => needle.isEmpty
  | c :: t => isInitSeg needle (c :: t) || isSubstrOf needle t

/-- Counts the occurrences of a nonempty needle inside hay. -/
def countOcc (needle : List Char) : List Char → Nat
  | [] => 0
  | c :: t => (if isInitSeg needle (c :: t) then 1 else 0) + countOcc needle t

/-- Splits a character list into lines at newline characters. -/
def splitLines : List Char → List (List Char)
  | [] => [[]]
  | c :: t =>
    if c = '\n' then [] :: splitLines t
    else
      match splitLines t with
      | [] => [[c]]
      | l :: ls => (c :: l) :: ls

/-- Number of leading space characters of a line. -/
def leadingSpaces : List Char → Nat
  | [] => 0
  | c :: t => if c = ' ' then leadingSpaces t + 1 else 0

/-- A line is blank when it only holds whitespace. -/
def isBlankLine (l : List Char) : Bool := l.all isWS

/-- True when the line, ignoring trailing whitespace, ends in a colon. -/
def endsInColon (l : List Char) : Bool :=
  (l.reverse.dropWhile isWS).head? = some ':'

/-- Modelled from the spec: one detected syntax-error record; only the
message (and hence the emptiness and the category multiplicity of the list)
is contractually significant. -/
structure SyntaxError where
  message : String
deriving DecidableEq

/-- Modelled from the spec: the fixed per-language dictionary of common
keyword misspellings checked by detectSyntaxErrors. -/
def typoDictionary (language : String) : List (String × String) :=
  if language = "javascript" then
    [("fucntion", "function"), ("retunr", "return")]
  else if language = "python" then
    [("retunr", "return"), ("dfe", "def")]
  else []

/-- Running-balance scan for one bracket pair: an error is signalled when the
balance goes negative anywhere or is nonzero at the end of the text. -/
def balanceErr (openC closeC : Char) : List Char → Int → Bool
  | [], bal => bal ≠ 0
  | c :: t, bal =>
    let bal2 : Int := if c = openC then bal + 1 else if c = closeC then bal - 1 else bal
    if bal2 < 0 then true else balanceErr openC closeC t bal2

/-- Modelled from the spec: detectSyntaxErrors, which is absent from the
snapshot (only its tests exist). It checks keyword misspellings against a
small fixed per-language dictionary, unmatched parentheses by running
balance, and unmatched curly brackets analogously; empty text yields an
empty list. -/
def detectSyntaxErrors (code language : String) : List SyntaxError :=
  let cs := code.data
  let typoErrs := (typoDictionary language).filterMap fun p =>
    if isSubstrOf p.1.data cs then some ⟨"misspelled keyword: " ++ p.2⟩ else none
  let parenErrs := if balanceErr '(' ')' cs 0 then [(⟨"unmatched parentheses"⟩ : SyntaxError)] else []
  let braceErrs := if balanceErr '\x7b' '\x7d' cs 0 then [(⟨"unmatched braces"⟩ : SyntaxError)] else []
  typoErrs ++ parenErrs ++ braceErrs

/-- Maximum concurrent open curly brackets seen while scanning left to right. -/
def braceDepthScan : List Char → Int → Int → Int
  | [], _, best => best
  | c :: t, cur, best =>
    let cur2 : Int := if c = '\x7b' then cur + 1 else if c = '\x7d' then cur - 1 else cur
    braceDepthScan t cur2 (max best cur2)

/-- Maximum indentation in 4-space units over non-blank lines that follow a
line ending in a colon. -/
def indentDepthScan : List (List Char) → Bool → Nat → Nat
  | [], _, best => best
  | l :: t, afterColon, best =>
    if isBlankLine l then indentDepthScan t afterColon best
    else
      let best2 := if afterColon then max best (leadingSpaces l / 4) else best
      indentDepthScan t (endsInColon l) best2

/-- True when the text holds any curly bracket. -/
def hasBraces (cs : List Char) : Bool :=
  cs.any fun c => c = '\x7b' || c = '\x7d'

/-- Modelled from the spec: calculateNestingDepth, absent from the snapshot.
For bracket-delimited code the depth is the maximum concurrent open-bracket
count; for indentation-based code it is the maximum indentation level in
4-space units over non-blank lines following a colon-terminated line. Empty
code gives 0. -/
def calculateNestingDepth (code : String) : Nat :=
  let cs := code.data
  if hasBraces cs then (braceDepthScan cs 0 0).toNat
  else indentDepthScan (splitLines cs) false 0

/-- Names declared directly after every occurrence of a marker such as
"function " or "def ". -/
def declaredNames (marker : List Char) : List Char → List (List Char)
  | [] => []
  | c :: t =>
    if isInitSeg marker (c :: t) then
      ((c :: t).drop marker.length).takeWhile identChar :: declaredNames marker t
    else declaredNames marker t

/-- Modelled from the spec: detectRecursion, absent from the snapshot. A
declared function name NAME (after a "function " or "def " marker) counts as
recursive when the call text NAME followed by an opening parenthesis occurs
at least twice in the text: once at the declaration and once more as a call.
Empty code gives false. -/
def detectRecursion (code : String) : Bool :=
  let cs := code.data
  let names := declaredNames "function ".data cs ++ declaredNames "def ".data cs
  names.any fun n => !n.isEmpty && decide (2 ≤ countOcc (n ++ ['(']) cs)

/-- Modelled from the spec: detectComments, absent from the snapshot. A
language-agnostic scan for any of the three comment marker forms. -/
def detectComments (code : String) : Bool :=
  isSubstrOf "//".data code.data || isSubstrOf "/*".data code.data ||
    isSubstrOf "#".data code.data

/-- The three mood labels of the classifier. -/
inductive Mood
  | DISCORDANT
  | HARMONIOUS
  | INTENSE
deriving DecidableEq

/-- MoodData value object produced by analyze. -/
structure MoodData where
  tempo : ℚ
  rootKey : String
  intensity : ℚ
  mood : Mood
deriving DecidableEq

/-- The mood classifier, embedded from the analyze pseudocode of
.kiro/specs/symphony-js/design.md: an ordered priority list over the four
heuristic signals, then tempo derived from intensity. -/
def analyze (code language : String) : MoodData :=
  let mri : Mood × String × ℚ :=
    if 0 < (detectSyntaxErrors code language).length then
      (Mood.DISCORDANT, "Dm", 8/10)
    else if detectComments code = true ∧ calculateNestingDepth code ≤ 2 then
      (Mood.HARMONIOUS, "C", 3/10)
    else if detectRecursion code = true ∨ 4 < calculateNestingDepth code then
      (Mood.INTENSE, "Am", 9/10)
    else (Mood.HARMONIOUS, "G", 1/2)
  { tempo := 60 + mri.2.2 * 120, rootKey := mri.2.1, intensity := mri.2.2, mood := mri.1 }

/-- A root-key label is minor exactly when it ends in the letter m. -/
def endsInM (s : String) : Bool := s.data.getLast? = some 'm'

/-- C1: analyze picks the mood by an ordered priority list with first match
winning: non-empty detectSyntaxErrors gives DISCORDANT; else comments with
nesting depth at most 2 give HARMONIOUS; else recursion or nesting depth
above 4 gives INTENSE; else HARMONIOUS. In particular error-free commented
code of nesting depth at most 2 is HARMONIOUS even when detectRecursion is
true. -/
theorem analyze_priority_policy (code language : String) :
    ((analyze code language).mood =
      (if 0 < (detectSyntaxErrors code language).length then Mood.DISCORDANT
       else if detectComments code = true ∧ calculateNestingDepth code ≤ 2 then Mood.HARMONIOUS
       else if detectRecursion code = true ∨ 4 < calculateNestingDepth code then Mood.INTENSE
       else Mood.HARMONIOUS))
    ∧ (detectSyntaxErrors code language = [] → detectComments code = true →
        calculateNestingDepth code ≤ 2 → (analyze code language).mood = Mood.HARMONIOUS) := by
  constructor
  · simp only [analyze]
    split_ifs <;> rfl
  · intro h1 h2 h3
    simp only [analyze]
    split_ifs with hA hB
    · exact absurd hA (by simp [h1])
    · rfl
    · exact absurd ⟨h2, h3⟩ hB
    · rfl

set_option maxRecDepth 40000 in
/-- Witness for C1 at a concrete input: recursive, commented, error-free code
of nesting depth 1 is classified HARMONIOUS. -/
theorem analyze_priority_policy_witness :
    detectRecursion "// note\nfunction f() \x7b f() \x7d" = true
    ∧ (analyze "// note\nfunction f() \x7b f() \x7d" "javascript").mood = Mood.HARMONIOUS :=
  ⟨by decide,
   (analyze_priority_policy "// note\nfunction f() \x7b f() \x7d" "javascript").2
     (by decide) (by decide) (by decide)⟩

/-- C2: the MoodData returned by analyze satisfies tempo equal to
60 + intensity * 120 (already an integer, so rounding is the identity),
tempo between 60 and 180, and intensity between 0 and 1. -/
theorem analyze_tempo_intensity (code language : String) :
    (analyze code language).tempo = 60 + (analyze code language).intensity * 120
    ∧ 60 ≤ (analyze code language).tempo ∧ (analyze code language).tempo ≤ 180
    ∧ 0 ≤ (analyze code language).intensity ∧ (analyze code language).intensity ≤ 1
    ∧ ∃ n : ℤ, (analyze code language).tempo = n := by
  simp only [analyze]
  split_ifs
  · exact ⟨by norm_num, by norm_num, by norm_num, by norm_num, by norm_num, 156, by norm_num⟩
  · exact ⟨by norm_num, by norm_num, by norm_num, by norm_num, by norm_num, 96, by norm_num⟩
  · exact ⟨by norm_num, by norm_num, by norm_num, by norm_num, by norm_num, 168, by norm_num⟩
  · exact ⟨by norm_num, by norm_num, by norm_num, by norm_num, by norm_num, 120, by norm_num⟩

/-- C6: a DISCORDANT mood comes with a minor root key (label ending in m)
and a HARMONIOUS mood with a major root key (label not ending in m). -/
theorem analyze_key_family (code language : String) :
    ((analyze code language).mood = Mood.DISCORDANT →
      endsInM (analyze code language).rootKey = true)
    ∧ ((analyze code language).mood = Mood.HARMONIOUS →
      endsInM (analyze code language).rootKey = false) := by
  simp only [analyze]
  split_ifs <;> refine ⟨fun h => ?_, fun h => ?_⟩ <;>
    first | decide | exact absurd h (by decide)

/-- Witness for C6 at concrete inputs: an erroneous input gets the minor key
Dm, the empty input gets the major key G. -/
theorem analyze_key_family_witness :
    endsInM (analyze "fucntion x" "javascript").rootKey = true
    ∧ endsInM (analyze "" "javascript").rootKey = false :=
  ⟨(analyze_key_family "fucntion x" "javascript").1 (by decide),
   (analyze_key_family "" "javascript").2 (by decide)⟩

set_option maxRecDepth 40000 in
/-- C7 counterexample: the intensity does not strictly increase with the
number of distinct detected error categories; an input with one detected
error and an input with three detected errors both get intensity 8/10. -/
theorem analyze_error_intensity_not_strict :
    (detectSyntaxErrors "fucntion x" "javascript").length
      < (detectSyntaxErrors "fucntion helo( \x7b retunr false \x7d" "javascript").length
    ∧ ¬ ((analyze "fucntion x" "javascript").intensity
          < (analyze "fucntion helo( \x7b retunr false \x7d" "javascript").intensity) := by
  have hA : (analyze "fucntion x" "javascript").intensity = 8/10 := by
    simp only [analyze]
    rw [if_pos (by decide : 0 < (detectSyntaxErrors "fucntion x" "javascript").length)]
  have hB : (analyze "fucntion helo( \x7b retunr false \x7d" "javascript").intensity = 8/10 := by
    simp only [analyze]
    rw [if_pos (by decide :
      0 < (detectSyntaxErrors "fucntion helo( \x7b retunr false \x7d" "javascript").length)]
  exact ⟨by decide, by rw [hA, hB]; exact lt_irrefl _⟩

/-- C7 amended: whenever detectSyntaxErrors is non-empty, analyze returns the
constant intensity 8/10, which lies within 7/10 and 1; the intensity does
not depend on the number of detected error categories. -/
theorem analyze_intensity_const_of_errors (code language : String)
    (h : detectSyntaxErrors code language ≠ []) :
    (analyze code language).intensity = 8/10
    ∧ 7/10 ≤ (analyze code language).intensity ∧ (analyze code language).intensity ≤ 1 := by
  have hl : 0 < (detectSyntaxErrors code language).length := List.length_pos.mpr h
  simp only [analyze]
  rw [if_pos hl]
  exact ⟨by norm_num, by norm_num, by norm_num⟩

set_option maxRecDepth 40000 in
/-- Witness for the amended C7 at the worked example of the spec. -/
theorem analyze_intensity_const_of_errors_witness :
    detectSyntaxErrors "fucntion helo( \x7b retunr false \x7d" "javascript" ≠ []
    ∧ (analyze "fucntion helo( \x7b retunr false \x7d" "javascript").intensity = 8/10 :=
  ⟨by decide,
   (analyze_intensity_const_of_errors "fucntion helo( \x7b retunr false \x7d" "javascript"
     (by decide)).1⟩

/-- Structural role of a source line, as seen by the section scanner. -/
inductive LineKind
  | importK
  | functionK
  | returnK
  | otherK
  | blank
deriving DecidableEq

/-- Structural role of a composition section. -/
inductive SectionType
  | importSection
  | functionSection
  | returnSection
  | otherSection
deriving DecidableEq

/-- The three instruments of the audio backend. -/
inductive Instrument
  | rhythm
  | harmony
  | melody
deriving DecidableEq

/-- One section of a commit composition. -/
structure CompositionSection where
  type : SectionType
  startLine : Nat
  endLine : Nat
  duration : ℚ
  notes : List String
  tempo : ℚ
  instrument : Instrument
deriving DecidableEq

/-- Modelled from the spec: line-local classification used to find section
boundaries by simple pattern match. -/
def classifyLine (l : List Char) : LineKind :=
  let t := l.dropWhile isWS
  if t.isEmpty then LineKind.blank
  else if isInitSeg "import".data t then LineKind.importK
  else if isInitSeg "from ".data t then LineKind.importK
  else if isInitSeg "return".data t then LineKind.returnK
  else if isSubstrOf "function ".data t || isInitSeg "def ".data t then LineKind.functionK
  else LineKind.otherK

/-- Net curly-bracket balance contributed by one line. -/
def lineBal (l : List Char) : Int :=
  l.foldl (fun b c => if c = '\x7b' then b + 1 else if c = '\x7d' then b - 1 else b) 0

/-- Scanner state threaded through the effective-kind pass: the running
bracket balance, the kind a body line is absorbed into, and the indentation
threshold while inside an indentation-delimited body. -/
structure ScanState where
  bal : Int
  cur : LineKind
  indentAbs : Option Nat
deriving DecidableEq

/-- Modelled from the spec: the effective kind of each line. A function or
return line opens a region; unclassified lines inside a still-open bracket
body, or indented under a def line, are absorbed into that region, so a
function or def declaration extends through its matching closing bracket or
dedent, and a return statement takes the trailing lines to the end of its
section. -/
def effKindsGo : List (List Char) → ScanState → List LineKind
  | [], _ => []
  | l :: t, st =>
    let k := classifyLine l
    if k = LineKind.blank then LineKind.blank :: effKindsGo t st
    else
      let ind := leadingSpaces l
      let inBody : Bool := decide (0 < st.bal) || (match st.indentAbs with
        | some d => decide (d < ind)
        | none => false)
      let eff := if k = LineKind.otherK
          ∧ inBody = true ∧ (st.cur = LineKind.functionK ∨ st.cur = LineKind.returnK)
        then st.cur else k
      let bal2 := st.bal + lineBal l
      let indentAbs2 :=
        if k = LineKind.functionK ∧ isInitSeg "def ".data (l.dropWhile isWS) then some ind
        else match st.indentAbs with
          | some d => if d < ind then some d else none
          | none => none
      let cur2 := if 0 < bal2 ∨ indentAbs2.isSome = true then eff else LineKind.otherK
      eff :: effKindsGo t ⟨bal2, cur2, indentAbs2⟩

/-- Effective line kinds of a full text. -/
def effKinds (ls : List (List Char)) : List LineKind :=
  effKindsGo ls ⟨0, LineKind.otherK, none⟩

/-- Extends the run list built for the tail by the line at index i of kind k:
the line joins the first run when that run has the same kind and starts right
below it, and otherwise opens a new single-line run. -/
def mergeRun (k : LineKind) (i : Nat) : List (LineKind × Nat × Nat) → List (LineKind × Nat × Nat)
  | [] => [(k, i, i)]
  | (k2, s, e) :: rs =>
    if k2 = k ∧ s = i + 1 then (k, i, e) :: rs
    else (k, i, i) :: (k2, s, e) :: rs

/-- Groups maximal runs of adjacent lines of equal non-blank effective kind
into (kind, first line index, last line index) triples, in source order. -/
def buildRuns (i : Nat) : List LineKind → List (LineKind × Nat × Nat)
  | [] => []
  | k :: t =>
    if k = LineKind.blank then buildRuns (i + 1) t
    else mergeRun k i (buildRuns (i + 1) t)

/-- The ordered section runs of a text, with 0-based line indices. -/
def compositionRuns (code : String) : List (LineKind × Nat × Nat) :=
  buildRuns 0 (effKinds (splitLines code.data))

/-- Line count of a run, as a rational. -/
def runLC (r : LineKind × Nat × Nat) : ℚ := ((r.2.2 + 1 - r.2.1 : Nat) : ℚ)

/-- Modelled from the spec: proportional share of the 15-second budget by
line count, with a floor of half a second per section. -/
def flooredDur (runs : List (LineKind × Nat × Nat)) (r : LineKind × Nat × Nat) : ℚ :=
  max (15 * runLC r / (runs.map runLC).sum) (1/2)

/-- Sum of the floored naive durations of all runs. -/
def totalFloored (runs : List (LineKind × Nat × Nat)) : ℚ :=
  (runs.map (flooredDur runs)).sum

/-- Modelled from the spec: the single common scale factor applied when the
naive floored allocation would exceed the 15-second budget. -/
def durFactor (runs : List (LineKind × Nat × Nat)) : ℚ :=
  if 15 < totalFloored runs then 15 / totalFloored runs else 1

/-- Maps a line kind to the type of the section it produces. -/
def kindToType : LineKind → SectionType
  | LineKind.importK => SectionType.importSection
  | LineKind.functionK => SectionType.functionSection
  | LineKind.returnK => SectionType.returnSection
  | _ => SectionType.otherSection

/-- C major scale note names. -/
def majorScale : List String := ["C4", "D4", "E4", "F4", "G4", "A4", "B4"]

/-- A natural minor scale note names. -/
def minorScale : List String := ["A4", "B4", "C5", "D5", "E5", "F5", "G5"]

/-- DISCORDANT and INTENSE moods use the minor scale, HARMONIOUS the major. -/
def isMinorMood : Mood → Bool
  | Mood.HARMONIOUS => false
  | _ => true

/-- Modelled from the spec: note material per section type, drawn from a
major or minor scale depending on the overall mood: sparse chord tones for
imports, a walked scale for functions, a resolving root-third-fifth triad
for returns. -/
def notesForType (ty : SectionType) (minor : Bool) : List String :=
  let scale := if minor then minorScale else majorScale
  match ty with
  | SectionType.importSection => [scale.getD 0 "", scale.getD 4 ""]
  | SectionType.functionSection => scale
  | SectionType.returnSection => [scale.getD 0 "", scale.getD 2 "", scale.getD 4 ""]
  | SectionType.otherSection => [scale.getD 0 ""]

/-- Modelled from the spec: import sections play rhythm, function sections
melody, return sections harmony; other sections rotate among the three. -/
def instrumentForRun (ty : SectionType) (startIdx : Nat) : Instrument :=
  match ty with
  | SectionType.importSection => Instrument.rhythm
  | SectionType.functionSection => Instrument.melody
  | SectionType.returnSection => Instrument.harmony
  | SectionType.otherSection =>
    match startIdx % 3 with
    | 0 => Instrument.rhythm
    | 1 => Instrument.harmony
    | _ => Instrument.melody

/-- Modelled from the spec: analyzeForComposition, absent from the snapshot
(only its tests exist). The text is partitioned top to bottom into ordered
sections, each gets a proportional-with-floors share of the fixed 15-second
budget scaled down by one common factor when it would overflow, note material
by type and overall mood, the overall tempo, and its mapped instrument. -/
def analyzeForComposition (code language : String) : List CompositionSection :=
  let runs := compositionRuns code
  let md := analyze code language
  let minor := isMinorMood md.mood
  runs.map fun r =>
    { type := kindToType r.1
      startLine := r.2.1 + 1
      endLine := r.2.2 + 1
      duration := flooredDur runs r * durFactor runs
      notes := notesForType (kindToType r.1) minor
      tempo := md.tempo
      instrument := instrumentForRun (kindToType r.1) r.2.1 }

/-- C8: the heuristics and the planner are total functions of their string
inputs, and on empty input each yields its no-signal default: no errors,
depth 0, no recursion, no comments, and the empty section sequence. -/
theorem heuristics_empty_defaults (language : String) :
    detectSyntaxErrors "" language = []
    ∧ calculateNestingDepth "" = 0
    ∧ detectRecursion "" = false
    ∧ detectComments "" = false
    ∧ analyzeForComposition "" language = [] := by
  refine ⟨?_, by decide, by decide, by decide, ?_⟩
  · by_cases h1 : language = "javascript"
    · subst h1; decide
    · by_cases h2 : language = "python"
      · subst h2; decide
      · simp only [detectSyntaxErrors, typoDictionary, if_neg h1, if_neg h2]
        decide
  · have h : compositionRuns "" = [] := by decide
    simp [analyzeForComposition, h]

/-- Multiplying each mapped summand by a constant scales the list sum. -/
theorem sum_map_mul_const {α : Type} (l : List α) (f : α → ℚ) (c : ℚ) :
    (l.map fun x => f x * c).sum = (l.map f).sum * c := by
  induction l with
  | nil => simp
  | cons a t ih => simp [ih]; ring

/-- The common scale factor is positive. -/
theorem durFactor_pos (runs : List (LineKind × Nat × Nat)) : 0 < durFactor runs := by
  unfold durFactor
  split_ifs with h
  · exact div_pos (by norm_num) (lt_trans (by norm_num) h)
  · norm_num

/-- Every floored duration is at least half a second. -/
theorem flooredDur_ge (runs : List (LineKind × Nat × Nat)) (r : LineKind × Nat × Nat) :
    (1/2 : ℚ) ≤ flooredDur runs r := le_max_right _ _

/-- The durations of the planned sections are the floored shares scaled by
the common factor. -/
theorem analyzeForComposition_durations (code language : String) :
    (analyzeForComposition code language).map (fun s => s.duration)
      = (compositionRuns code).map
          (fun r => flooredDur (compositionRuns code) r * durFactor (compositionRuns code)) := by
  simp only [analyzeForComposition, List.map_map]
  rfl

/-- C3: every planned section has positive duration, the total duration never
exceeds the 15-second budget, and whenever the naive floored allocation
would exceed the budget all durations are scaled by the single common factor
so the total equals exactly 15. -/
theorem composition_duration_budget (code language : String) (_h : code ≠ "") :
    (∀ s ∈ analyzeForComposition code language, 0 < s.duration)
    ∧ ((analyzeForComposition code language).map (fun s => s.duration)).sum ≤ 15
    ∧ (15 < totalFloored (compositionRuns code) →
        ((analyzeForComposition code language).map (fun s => s.duration)).sum = 15) := by
  have hdur := analyzeForComposition_durations code language
  have hsum : ((analyzeForComposition code language).map (fun s => s.duration)).sum
      = totalFloored (compositionRuns code) * durFactor (compositionRuns code) := by
    rw [hdur, sum_map_mul_const]
    rfl
  refine ⟨?_, ?_, ?_⟩
  · intro s hs
    simp only [analyzeForComposition, List.mem_map] at hs
    obtain ⟨r, hr, rfl⟩ := hs
    have h1 : (0 : ℚ) < flooredDur (compositionRuns code) r :=
      lt_of_lt_of_le (by norm_num) (flooredDur_ge _ _)
    exact mul_pos h1 (durFactor_pos _)
  · rw [hsum]
    unfold durFactor
    split_ifs with hf
    · rw [div_eq_mul_inv, ← mul_assoc, mul_comm, ← mul_assoc, inv_mul_cancel₀
        (by positivity : totalFloored (compositionRuns code) ≠ 0), one_mul]
    · simpa using le_of_not_lt hf
  · intro hf
    rw [hsum]
    unfold durFactor
    rw [if_pos hf]
    field_simp

set_option maxRecDepth 40000 in
/-- Witness for C3 at a concrete nonempty input. -/
theorem composition_duration_budget_witness :
    ("function f() \x7b\n  return 1\n\x7d" : String) ≠ ""
    ∧ ((analyzeForComposition "function f() \x7b\n  return 1\n\x7d" "javascript").map
        (fun s => s.duration)).sum ≤ 15 :=
  ⟨by decide,
   (composition_duration_budget "function f() \x7b\n  return 1\n\x7d" "javascript"
     (by decide)).2.1⟩

/-- Merging the line at index i into runs that all start below i yields runs
that start at or after i, each with start at most end. -/
theorem mergeRun_mem_bounds (k : LineKind) (i : Nat) (rest : List (LineKind × Nat × Nat))
    (hb : ∀ r ∈ rest, i + 1 ≤ r.2.1 ∧ r.2.1 ≤ r.2.2) :
    ∀ r ∈ mergeRun k i rest, i ≤ r.2.1 ∧ r.2.1 ≤ r.2.2 := by
  intro r hr
  rcases rest with _ | ⟨⟨k2, s, e⟩, rs⟩
  · simp only [mergeRun, List.mem_singleton] at hr
    subst hr
    exact ⟨le_refl _, le_refl _⟩
  · simp only [mergeRun] at hr
    split_ifs at hr with hm
    · rcases List.mem_cons.mp hr with h1 | h1
      · subst h1
        have h2 := hb (k2, s, e) (List.mem_cons_self _ _)
        have h3 : i + 1 ≤ s ∧ s ≤ e := h2
        show i ≤ i ∧ i ≤ e
        omega
      · have := hb r (List.mem_cons_of_mem _ h1)
        omega
    · rcases List.mem_cons.mp hr with h1 | h1
      · subst h1
        exact ⟨le_refl _, le_refl _⟩
      · have := hb r h1
        omega

/-- Merging the line at index i preserves the ordering of the runs. -/
theorem mergeRun_ordered (k : LineKind) (i : Nat) (rest : List (LineKind × Nat × Nat))
    (hb : ∀ r ∈ rest, i + 1 ≤ r.2.1 ∧ r.2.1 ≤ r.2.2)
    (hc : List.Chain' (fun a b => a.2.2 < b.2.1) rest) :
    List.Chain' (fun a b => a.2.2 < b.2.1) (mergeRun k i rest) := by
  rcases rest with _ | ⟨⟨k2, s, e⟩, rs⟩
  · simp [mergeRun]
  · simp only [mergeRun]
    split_ifs with hm
    · rcases rs with _ | ⟨⟨k3, s3, e3⟩, rs2⟩
      · simp
      · rw [List.chain'_cons] at hc ⊢
        exact hc
    · rw [List.chain'_cons]
      refine ⟨?_, hc⟩
      have h2 : i + 1 ≤ s ∧ s ≤ e := hb (k2, s, e) (List.mem_cons_self _ _)
      show i < s
      omega

/-- Every run produced from position i starts at or after i and has its start
at or before its end. -/
theorem buildRuns_mem_bounds (ks : List LineKind) :
    ∀ (i : Nat) (r : LineKind × Nat × Nat),
      r ∈ buildRuns i ks → i ≤ r.2.1 ∧ r.2.1 ≤ r.2.2 := by
  induction ks with
  | nil => intro i r hr; simp [buildRuns] at hr
  | cons k t ih =>
    intro i r hr
    simp only [buildRuns] at hr
    split_ifs at hr with hk
    · have := ih (i + 1) r hr
      omega
    · exact mergeRun_mem_bounds k i _ (fun r2 h2 => ih (i + 1) r2 h2) r hr

/-- The runs produced from position i are ordered: each ends strictly before
the next starts. -/
theorem buildRuns_ordered (ks : List LineKind) :
    ∀ i : Nat, List.Chain' (fun a b => a.2.2 < b.2.1) (buildRuns i ks) := by
  induction ks with
  | nil => intro i; simp [buildRuns]
  | cons k t ih =>
    intro i
    simp only [buildRuns]
    split_ifs with hk
    · exact ih (i + 1)
    · exact mergeRun_ordered k i _
        (fun r2 h2 => buildRuns_mem_bounds t (i + 1) r2 h2) (ih (i + 1))

/-- Mapping over an ordered list whose elements all satisfy P transports an
adjacent-pair relation along the map. -/
theorem chain_map_of_chain {α β : Type} {R : α → α → Prop} {S : β → β → Prop}
    {P : α → Prop} (f : α → β) (l : List α) (hP : ∀ x ∈ l, P x)
    (hC : List.Chain' R l) (himp : ∀ a b, P a → P b → R a b → S (f a) (f b)) :
    List.Chain' S (l.map f) := by
  induction l with
  | nil => simp
  | cons a t iht =>
    rcases t with _ | ⟨b, t2⟩
    · simp
    · rw [List.chain'_cons] at hC
      rw [List.map_cons, List.map_cons, List.chain'_cons]
      refine ⟨himp a b (hP a (by simp)) (hP b (by simp)) hC.1, ?_⟩

      have := iht (fun x hx => hP x (List.mem_cons_of_mem _ hx)) hC.2
      simpa using this

/-- C9: the planned sections are contiguous in source order: adjacent
sections satisfy endLine at most the next startLine with strictly ascending
startLine, and every section has startLine at most endLine. -/
theorem composition_sections_ordered (code language : String) :
    List.Chain' (fun a b => a.endLine ≤ b.startLine ∧ a.startLine < b.startLine)
      (analyzeForComposition code language)
    ∧ ∀ s ∈ analyzeForComposition code language, s.startLine ≤ s.endLine := by
  constructor
  · simp only [analyzeForComposition]
    refine chain_map_of_chain (P := fun r => r.2.1 ≤ r.2.2) _ _
      (fun r hr => (buildRuns_mem_bounds _ 0 r hr).2)
      (buildRuns_ordered _ 0) ?_
    intro a b ha hb hr
    refine ⟨?_, ?_⟩
    · show a.2.2 + 1 ≤ b.2.1 + 1
      omega
    · show a.2.1 + 1 < b.2.1 + 1
      omega
  · intro s hs
    simp only [analyzeForComposition, List.mem_map] at hs
    obtain ⟨r, hr, rfl⟩ := hs
    have := (buildRuns_mem_bounds _ 0 r hr).2
    show r.2.1 + 1 ≤ r.2.2 + 1
    omega

/-- Duration argument of a note trigger, either notated (such as 8n) or in
seconds, mirroring the two argument forms triggerAttackRelease receives in
InstrumentManager.ts. -/
inductive NoteDur
  | symbolic (s : String)
  | timed (q : ℚ)
deriving DecidableEq

/-- One scheduled note-trigger instruction: logical transport time, target
instrument, the note or chord, and the sounding duration. -/
structure TriggerEvent where
  time : ℚ
  instrument : Instrument
  notes : List String
  dur : NoteDur
deriving DecidableEq

/-- Modelled from the spec: the external Tone.js transport, reduced to the
contract the spec assigns it: a list of scheduled-but-not-yet-triggered
callbacks, a settable global tempo, a running flag, and a pending stop time.
All operations are total, so none of them can throw. -/
structure Transport where
  scheduled : List TriggerEvent
  bpm : ℚ
  started : Bool
  stopAt : Option ℚ
deriving DecidableEq

/-- Transport.stop: playback halts; scheduled callbacks are untouched. -/
def transportStop (st : Transport) : Transport := { st with started := false }

/-- Transport.cancel: discards every scheduled-but-not-yet-triggered event. -/
def transportCancel (st : Transport) : Transport := { st with scheduled := [] }

/-- Transport.start: playback begins. -/
def transportStart (st : Transport) : Transport := { st with started := true }

/-- Transport.stop at a relative future time. -/
def transportStopAt (st : Transport) (t : ℚ) : Transport := { st with stopAt := some t }

/-- Assignment to Transport.bpm.value. -/
def setBpm (st : Transport) (b : ℚ) : Transport := { st with bpm := b }

/-- A transport on which nothing is playing and nothing is scheduled. -/
def Transport.initial : Transport := { scheduled := [], bpm := 120, started := false, stopAt := none }

/-- Events issued by scheduleImportSection of InstrumentManager.ts: a steady
rhythm beat every half second for the floor of duration over the beat
interval, plus one sustained harmony chord when notes were provided. -/
def importSectionEvents (startTime duration : ℚ) (notes : List String) : List TriggerEvent :=
  ((List.range (⌊duration / (1/2 : ℚ)⌋).toNat).map fun i =>
    ⟨startTime + i * (1/2 : ℚ), Instrument.rhythm, ["C2"], NoteDur.symbolic "8n"⟩)
  ++ (if 0 < notes.length then
      [⟨startTime, Instrument.harmony, notes.take 3, NoteDur.timed duration⟩]
    else [])

/-- Events issued by the note loop of scheduleFunctionSection: for the note
at loop index i, a melody trigger at startTime plus i times the interval,
with a supporting rhythm hit on even indices. -/
def functionNoteEvents (startTime interval : ℚ) : List String → Nat → List TriggerEvent
  | [], _ => []
  | n :: t, i =>
    ⟨startTime + i * interval, Instrument.melody, [n], NoteDur.symbolic "8n"⟩
      :: ((if i % 2 = 0 then
            [⟨startTime + i * interval, Instrument.rhythm, ["C1"], NoteDur.symbolic "16n"⟩]
          else [])
        ++ functionNoteEvents startTime interval t (i + 1))

/-- Events issued by scheduleFunctionSection of InstrumentManager.ts: nothing
for an empty note list; otherwise the note loop with interval duration over
note count, then a harmony chord over eight tenths of the duration when at
least three notes exist. -/
def functionSectionEvents (startTime duration : ℚ) (notes : List String) : List TriggerEvent :=
  if notes.length = 0 then []
  else
    functionNoteEvents startTime (duration / (notes.length : ℚ)) notes 0
    ++ (if 3 ≤ notes.length then
        [⟨startTime, Instrument.harmony,
          [notes.getD 0 "", notes.getD (notes.length / 2) "", (notes.getLast?).getD ""],
          NoteDur.timed (duration * (8/10))⟩]
      else [])

/-- Events issued by scheduleReturnSection of InstrumentManager.ts: with at
least three notes, a resolving harmony chord at the section start, a final
melody note at three tenths into the section, and a final rhythm hit. -/
def returnSectionEvents (startTime duration : ℚ) (notes : List String) : List TriggerEvent :=
  if 3 ≤ notes.length then
    [⟨startTime, Instrument.harmony, notes.take 3, NoteDur.timed duration⟩,
     ⟨startTime + duration * (3/10), Instrument.melody, [notes.getD 0 ""],
       NoteDur.timed (duration * (1/2))⟩,
     ⟨startTime, Instrument.rhythm, ["C2"], NoteDur.symbolic "4n"⟩]
  else []

/-- Melody loop of scheduleGenericSection: one sixteenth note per entry,
evenly spread at interval steps. -/
def genericMelodyEvents (startTime interval : ℚ) : List String → Nat → List TriggerEvent
  | [], _ => []
  | n :: t, i =>
    ⟨startTime + i * interval, Instrument.melody, [n], NoteDur.symbolic "16n"⟩
      :: genericMelodyEvents startTime interval t (i + 1)

/-- Events issued by scheduleGenericSection of InstrumentManager.ts,
dispatched on the section instrument. -/
def genericSectionEvents (startTime duration : ℚ) (notes : List String)
    (instrument : Instrument) : List TriggerEvent :=
  if notes.length = 0 then []
  else
    match instrument with
    | Instrument.rhythm => [⟨startTime, Instrument.rhythm, ["C1"], NoteDur.symbolic "8n"⟩]
    | Instrument.harmony => [⟨startTime, Instrument.harmony, notes.take 3, NoteDur.timed duration⟩]
    | Instrument.melody => genericMelodyEvents startTime (duration / (notes.length : ℚ)) notes 0

/-- scheduleImportSection: appends its events to the transport schedule, in
call order. -/
def scheduleImportSection (st : Transport) (startTime duration : ℚ)
    (notes : List String) : Transport :=
  { st with scheduled := st.scheduled ++ importSectionEvents startTime duration notes }

/-- scheduleFunctionSection: appends its events to the transport schedule. -/
def scheduleFunctionSection (st : Transport) (startTime duration : ℚ)
    (notes : List String) : Transport :=
  { st with scheduled := st.scheduled ++ functionSectionEvents startTime duration notes }

/-- scheduleReturnSection: appends its events to the transport schedule. -/
def scheduleReturnSection (st : Transport) (startTime duration : ℚ)
    (notes : List String) : Transport :=
  { st with scheduled := st.scheduled ++ returnSectionEvents startTime duration notes }

/-- scheduleGenericSection: appends its events to the transport schedule. -/
def scheduleGenericSection (st : Transport) (startTime duration : ℚ)
    (notes : List String) (instrument : Instrument) : Transport :=
  { st with scheduled := st.scheduled ++ genericSectionEvents startTime duration notes instrument }

/-- Dispatch on the section type, as the switch inside playCommitComposition
does. -/
def scheduleSection (st : Transport) (cur : ℚ) (s : CompositionSection) : Transport :=
  match s.type with
  | SectionType.importSection => scheduleImportSection st cur s.duration s.notes
  | SectionType.functionSection => scheduleFunctionSection st cur s.duration s.notes
  | SectionType.returnSection => scheduleReturnSection st cur s.duration s.notes
  | SectionType.otherSection => scheduleGenericSection st cur s.duration s.notes s.instrument

/-- The forEach loop of playCommitComposition: sets the transport tempo to
the section tempo, schedules the section at the running start time, then
advances the running time by the section duration. Returns the transport
and the final cumulative time. -/
def scheduleSections : Transport → ℚ → List CompositionSection → Transport × ℚ
  | st, cur, [] => (st, cur)
  | st, cur, s :: rest =>
    scheduleSections (scheduleSection (setBpm st s.tempo) cur s) (cur + s.duration) rest

/-- playCommitComposition of InstrumentManager.ts: stop and cancel any
previous playback, schedule every section at the cumulative start time,
start the transport, and stop it again after the total duration. -/
def playCommitComposition (st : Transport) (sections : List CompositionSection) : Transport :=
  let st0 := transportCancel (transportStop st)
  let p := scheduleSections st0 0 sections
  transportStopAt (transportStart p.1) p.2

/-- The pure event list of one section at a given start time. -/
def sectionEvents (startTime : ℚ) (s : CompositionSection) : List TriggerEvent :=
  match s.type with
  | SectionType.importSection => importSectionEvents startTime s.duration s.notes
  | SectionType.functionSection => functionSectionEvents startTime s.duration s.notes
  | SectionType.returnSection => returnSectionEvents startTime s.duration s.notes
  | SectionType.otherSection => genericSectionEvents startTime s.duration s.notes s.instrument

/-- The full event list of a commit composition, each section offset by the
cumulative duration of the sections before it. -/
def commitEvents : ℚ → List CompositionSection → List TriggerEvent
  | _, [] => []
  | cur, s :: rest => sectionEvents cur s ++ commitEvents (cur + s.duration) rest

/-- Placeholder section used as the out-of-range default of getD. -/
def defaultSection : CompositionSection :=
  { type := SectionType.otherSection, startLine := 0, endLine := 0, duration := 0,
    notes := [], tempo := 0, instrument := Instrument.rhythm }

/-- Recognizes melody-instrument triggers. -/
def isMelody (e : TriggerEvent) : Bool :=
  match e.instrument with
  | Instrument.melody => true
  | _ => false

/-- scheduleSection appends exactly the section event list. -/
theorem scheduleSection_eq (st : Transport) (cur : ℚ) (s : CompositionSection) :
    scheduleSection st cur s = { st with scheduled := st.scheduled ++ sectionEvents cur s } := by
  cases hty : s.type <;>
    simp [scheduleSection, sectionEvents, hty, scheduleImportSection,
      scheduleFunctionSection, scheduleReturnSection, scheduleGenericSection]

/-- The scheduling pass appends exactly the commit event list. -/
theorem scheduleSections_scheduled (l : List CompositionSection) :
    ∀ (st : Transport) (cur : ℚ),
      (scheduleSections st cur l).1.scheduled = st.scheduled ++ commitEvents cur l := by
  induction l with
  | nil => intro st cur; simp [scheduleSections, commitEvents]
  | cons s rest ih =>
    intro st cur
    simp only [scheduleSections, commitEvents]
    rw [ih, scheduleSection_eq]
    simp [setBpm, List.append_assoc]

/-- scheduleSection keeps the transport tempo unchanged. -/
theorem scheduleSection_bpm (st : Transport) (cur : ℚ) (s : CompositionSection) :
    (scheduleSection st cur s).bpm = st.bpm := by
  rw [scheduleSection_eq]

/-- After the scheduling pass the transport tempo is the tempo of the last
section. -/
theorem scheduleSections_bpm (l : List CompositionSection) :
    ∀ (st : Transport) (cur : ℚ) (s0 : CompositionSection),
      l.getLast? = some s0 → (scheduleSections st cur l).1.bpm = s0.tempo := by
  induction l with
  | nil => intro st cur s0 h; simp at h
  | cons s rest ih =>
    intro st cur s0 h
    rcases rest with _ | ⟨b, t2⟩
    · simp only [List.getLast?_singleton, Option.some.injEq] at h
      subst h
      simp only [scheduleSections]
      rw [scheduleSection_bpm]
      rfl
    · rw [List.getLast?_cons_cons] at h
      simp only [scheduleSections]
      exact ih _ _ s0 h

/-- The commit event list decomposes into per-section event lists, each
offset by the sum of the durations of the sections before it. -/
theorem commitEvents_eq (l : List CompositionSection) :
    ∀ cur : ℚ, commitEvents cur l
      = ((List.range l.length).map fun i =>
          sectionEvents (cur + ((l.take i).map fun s => s.duration).sum)
            (l.getD i defaultSection)).flatten := by
  induction l with
  | nil => intro cur; simp [commitEvents]
  | cons s rest ih =>
    intro cur
    rw [commitEvents, ih (cur + s.duration)]
    rw [List.length_cons, List.range_succ_eq_map, List.map_cons, List.flatten_cons]
    congr 1
    · simp
    · rw [List.map_map]
      have hfun : ((fun i =>
            sectionEvents (cur + ((List.take i (s :: rest)).map fun s => s.duration).sum)
              ((s :: rest).getD i defaultSection)) ∘ Nat.succ)
          = fun i =>
              sectionEvents (cur + s.duration + ((List.take i rest).map fun s => s.duration).sum)
                (rest.getD i defaultSection) := by
        funext i
        simp only [Function.comp_apply, Nat.succ_eq_add_one, List.take_succ_cons,
          List.map_cons, List.sum_cons, List.getD_cons_succ]
        rw [add_assoc]
      rw [hfun]

/-- The melody triggers of the function-section note loop started at loop
index i are exactly one per note, spaced by the interval. -/
theorem functionNoteEvents_melody_times (startTime interval : ℚ) (notes : List String) :
    ∀ i : Nat,
      ((functionNoteEvents startTime interval notes i).filter isMelody).map (fun e => e.time)
        = (List.range notes.length).map
            (fun j => startTime + ((i + j : ℕ) : ℚ) * interval) := by
  induction notes with
  | nil => intro i; simp [functionNoteEvents]
  | cons n t ih =>
    intro i
    have hrec := ih (i + 1)
    simp only [functionNoteEvents, List.filter_cons, List.filter_append]
    have h1 : isMelody
        ⟨startTime + i * interval, Instrument.melody, [n], NoteDur.symbolic "8n"⟩ = true := rfl
    rw [h1]
    have h2 : (if i % 2 = 0 then
        [(⟨startTime + i * interval, Instrument.rhythm, ["C1"],
            NoteDur.symbolic "16n"⟩ : TriggerEvent)]
      else []).filter isMelody = [] := by
      split_ifs <;> rfl
    rw [h2]
    rw [if_pos rfl, List.nil_append, List.map_cons, hrec, List.length_cons,
      List.range_succ_eq_map, List.map_cons, List.map_map]
    have hfun : ((fun j => startTime + ((i + j : ℕ) : ℚ) * interval) ∘ Nat.succ)
        = fun j => startTime + (((i + 1) + j : ℕ) : ℚ) * interval := by
      funext j
      simp only [Function.comp_apply]
      have h3 : i + Nat.succ j = (i + 1) + j := by omega
      rw [h3]
    rw [hfun]
    congr 2

/-- Inside a function section the melody notes are evenly spaced across the
section duration: the trigger of note j fires at the section start plus j
times duration over note count. -/
theorem functionSection_melody_spacing (startTime : ℚ) (s : CompositionSection)
    (hty : s.type = SectionType.functionSection) (hne : s.notes ≠ []) :
    ((sectionEvents startTime s).filter isMelody).map (fun e => e.time)
      = (List.range s.notes.length).map
          (fun j : ℕ => startTime + (j : ℚ) * (s.duration / (s.notes.length : ℚ))) := by
  have hlen : s.notes.length ≠ 0 := fun h => hne (List.length_eq_zero.mp h)
  simp only [sectionEvents, hty]
  rw [functionSectionEvents, if_neg hlen, List.filter_append]
  have h2 : (if 3 ≤ s.notes.length then
      [(⟨startTime, Instrument.harmony,
          [s.notes.getD 0 "", s.notes.getD (s.notes.length / 2) "",
            (s.notes.getLast?).getD ""],
          NoteDur.timed (s.duration * (8/10))⟩ : TriggerEvent)]
    else []).filter isMelody = [] := by
    split_ifs <;> rfl
  rw [h2, List.append_nil]
  rw [functionNoteEvents_melody_times startTime (s.duration / (s.notes.length : ℚ)) s.notes 0]
  have hfun : (fun j : ℕ => startTime + (((0 + j : ℕ) : ℚ)) * (s.duration / (s.notes.length : ℚ)))
      = fun j : ℕ => startTime + (j : ℚ) * (s.duration / (s.notes.length : ℚ)) := by
    funext j
    norm_num
  rw [hfun]

/-- C4: playCommitComposition schedules the triggers of each section with
logical start time equal to the sum of the durations of the sections before
it, and within a function section the melody notes are evenly spaced across
the section duration. -/
theorem playCommit_section_timing (st : Transport) (sections : List CompositionSection) :
    ((playCommitComposition st sections).scheduled
      = ((List.range sections.length).map fun i =>
          sectionEvents (((sections.take i).map fun s => s.duration).sum)
            (sections.getD i defaultSection)).flatten)
    ∧ ∀ (startTime : ℚ) (s : CompositionSection),
        s.type = SectionType.functionSection → s.notes ≠ [] →
        ((sectionEvents startTime s).filter isMelody).map (fun e => e.time)
          = (List.range s.notes.length).map
              (fun j : ℕ => startTime + (j : ℚ) * (s.duration / (s.notes.length : ℚ))) := by
  constructor
  · have h := commitEvents_eq sections 0
    simp only [zero_add] at h
    simp only [playCommitComposition, transportStopAt, transportStart]
    rw [scheduleSections_scheduled]
    simp [transportCancel, transportStop, h]
  · exact fun startTime s hty hne => functionSection_melody_spacing startTime s hty hne

/-- Witness for C4 at a concrete two-note function section scheduled from
time 0: the melody triggers fall at 0 and at 2, half the 4-second duration
apart. -/
theorem playCommit_section_timing_witness :
    (⟨SectionType.functionSection, 1, 1, 4, ["C4", "E4"], 120, Instrument.melody⟩ :
        CompositionSection).type = SectionType.functionSection
    ∧ (["C4", "E4"] : List String) ≠ []
    ∧ ((sectionEvents 0 ⟨SectionType.functionSection, 1, 1, 4, ["C4", "E4"], 120,
          Instrument.melody⟩).filter isMelody).map (fun e => e.time)
      = (List.range (["C4", "E4"] : List String).length).map
          (fun j : ℕ => (0 : ℚ) + (j : ℚ) * ((4 : ℚ) / (((["C4", "E4"] : List String).length : ℕ) : ℚ))) :=
  ⟨rfl, by decide,
   (playCommit_section_timing Transport.initial []).2 0
     ⟨SectionType.functionSection, 1, 1, 4, ["C4", "E4"], 120, Instrument.melody⟩
     rfl (by decide)⟩

/-- C5: a new commit playback never overlaps a previous one: the schedule
after playCommitComposition holds exactly the new commit events with every
previously scheduled event removed, the cancellation is idempotent, and
cancelling a transport on which nothing is scheduled is the identity, and
being a total function it cannot throw. -/
theorem playCommit_cancels_previous (st : Transport) (sections : List CompositionSection) :
    (playCommitComposition st sections).scheduled = commitEvents 0 sections
    ∧ transportCancel (transportCancel st) = transportCancel st
    ∧ (st.scheduled = [] → transportCancel st = st) := by
  refine ⟨?_, rfl, ?_⟩
  · simp only [playCommitComposition, transportStopAt, transportStart]
    rw [scheduleSections_scheduled]
    simp [transportCancel, transportStop]
  · intro h
    cases st
    simp_all [transportCancel]

/-- Witness for C5 on the idle transport: nothing is scheduled, and
cancelling it leaves it unchanged. -/
theorem playCommit_cancels_previous_witness :
    Transport.initial.scheduled = []
    ∧ transportCancel Transport.initial = Transport.initial :=
  ⟨rfl, (playCommit_cancels_previous Transport.initial []).2.2 rfl⟩

/-- C10: the scheduling pass reassigns the global transport tempo for every
section synchronously, so when playback starts the transport tempo is the
tempo of the last section; earlier sections do not play at their own tempo
values. -/
theorem playCommit_final_bpm (st : Transport) (sections : List CompositionSection)
    (s : CompositionSection) (h : sections.getLast? = some s) :
    (playCommitComposition st sections).bpm = s.tempo := by
  simp only [playCommitComposition, transportStopAt, transportStart]
  exact scheduleSections_bpm sections _ 0 s h

/-- Witness for C10 on a two-section composition with tempos 90 and 150: the
transport is left at 150. -/
theorem playCommit_final_bpm_witness :
    ([⟨SectionType.otherSection, 1, 1, 5, ["C4"], 90, Instrument.rhythm⟩,
      ⟨SectionType.otherSection, 2, 2, 5, ["C4"], 150, Instrument.rhythm⟩] :
        List CompositionSection).getLast?
      = some ⟨SectionType.otherSection, 2, 2, 5, ["C4"], 150, Instrument.rhythm⟩
    ∧ (playCommitComposition Transport.initial
        [⟨SectionType.otherSection, 1, 1, 5, ["C4"], 90, Instrument.rhythm⟩,
         ⟨SectionType.otherSection, 2, 2, 5, ["C4"], 150, Instrument.rhythm⟩]).bpm = 150 :=
  ⟨rfl,
   playCommit_final_bpm Transport.initial
     [⟨SectionType.otherSection, 1, 1, 5, ["C4"], 90, Instrument.rhythm⟩,
      ⟨SectionType.otherSection, 2, 2, 5, ["C4"], 150, Instrument.rhythm⟩]
     ⟨SectionType.otherSection, 2, 2, 5, ["C4"], 150, Instrument.rhythm⟩ rfl⟩

end Symphony
